import Mathlib

/-!
Verification of the binary receipt-list decoder of the repository
(`src/cli/receipts.rs`).  The byte-level item reader lives in the external
rlp library the source links against; the item tree it produces is the data
model of the decoder, so the tree type `Item` is the main object here.
Bytes are modelled as natural numbers (values below 256).
-/

set_option maxHeartbeats 1000000

deriving instance DecidableEq for Except

namespace Reth

/-- Binary items: either an opaque byte string (`scalar`) or an ordered list
of nested items (`list`).  This is the tagged-union tree the byte reader
produces and the receipt decoder consumes. -/
inductive Item where
  | scalar : List Nat → Item
  | list : List Item → Item
deriving Repr

/-- Decoder errors.  The `Rlp*` variants mirror the error values returned by
the field accessors of the rlp library that `Receipt::decode` calls
(`at`, `val_at`); `RlpInvalidUtf8` stands for the string field decoding
failure; `TruncatedInput` and `InvalidLengthEncoding` are the byte-level
reader errors of the specification. -/
inductive DecoderError where
  | RlpExpectedToBeList
  | RlpExpectedToBeData
  | RlpIsTooShort
  | RlpIsTooBig
  | RlpInvalidIndirection
  | RlpInvalidUtf8
  | TruncatedInput
  | InvalidLengthEncoding
deriving Repr, DecidableEq

/-- The 16-field receipt record of `src/cli/receipts.rs`.  Unsigned integer
fields (`u8`/`u64`/`U256` in the source) are modelled as `Nat`; byte-string,
hash and string fields as `List Nat` (their byte content). -/
structure Receipt where
  ty : Nat
  post_state : List Nat
  status : Nat
  cumulative_gas_used : Nat
  bloom : List Nat
  logs : List Nat
  tx_hash : List Nat
  contract_address : List Nat
  gas_used : Nat
  block_hash : List Nat
  block_number : Nat
  transaction_index : Nat
  l1_gas_price : Nat
  l1_gas_used : Nat
  l1_fee : Nat
  l1_fee_scalar : List Nat
deriving Repr, DecidableEq

/-- Big-endian interpretation of a byte string as a natural number. -/
def beNat (bs : List Nat) : Nat := bs.foldl (fun acc b => acc * 256 + b) 0

/-- Big-endian byte representation of a natural number (no leading zero
byte; `0` is represented by the empty string). -/
def beBytes : Nat → List Nat
  | 0 => []
  | n + 1 => beBytes ((n + 1) / 256) ++ [(n + 1) % 256]
decreasing_by exact Nat.div_lt_self (Nat.succ_pos n) (by norm_num)

/-- Length header of the binary format: `offset` is `0x80` for strings and
`0xc0` for lists; payloads up to 55 bytes use the short form, longer ones a
long form whose low control bits give the byte-length of the big-endian
length field. -/
def encodeLength (offset : Nat) (len : Nat) : List Nat :=
  if len ≤ 55 then [offset + len]
  else (offset + 55 + (beBytes len).length) :: beBytes len

mutual

/-- Canonical binary encoding of an item (the raw sub-encoding that
`rlp.at(5)?.as_raw()` captures for the logs field). -/
def encodeItem : Item → List Nat
  | .scalar bs =>
    match bs with
    | [b] => if b ≤ 0x7f then [b] else [0x81, b]
    | _ => encodeLength 0x80 bs.length ++ bs
  | .list cs => encodeLength 0xc0 (encodeItems cs).length ++ encodeItems cs

/-- Concatenated encodings of a sequence of items (a list payload). -/
def encodeItems : List Item → List Nat
  | [] => []
  | c :: rest => encodeItem c ++ encodeItems rest

end

/-- Whether a byte is a UTF-8 continuation byte. -/
def isCont (b : Nat) : Bool := decide (0x80 ≤ b) && decide (b ≤ 0xbf)

/-- UTF-8 validity of a byte string, following the standard definition used
by the string decoding in the source (rejecting overlong forms, surrogates
and values above U+10FFFF). -/
def validUtf8 : List Nat → Bool
  | [] => true
  | b :: rest =>
    if b ≤ 0x7f then validUtf8 rest
    else if b < 0xc2 then false
    else if b ≤ 0xdf then
      match rest with
      | c1 :: r => isCont c1 && validUtf8 r
      | [] => false
    else if b ≤ 0xef then
      match rest with
      | c1 :: c2 :: r =>
        decide ((if b = 0xe0 then 0xa0 else 0x80) ≤ c1) &&
        decide (c1 ≤ (if b = 0xed then 0x9f else 0xbf)) &&
        isCont c2 && validUtf8 r
      | _ => false
    else if b ≤ 0xf4 then
      match rest with
      | c1 :: c2 :: c3 :: r =>
        decide ((if b = 0xf0 then 0x90 else 0x80) ≤ c1) &&
        decide (c1 ≤ (if b = 0xf4 then 0x8f else 0xbf)) &&
        isCont c2 && isCont c3 && validUtf8 r
      | _ => false
    else false

/-- The `rlp.at(i)` accessor: the `i`-th child of a list item.  Fails with
`RlpExpectedToBeList` on a scalar and with `RlpIsTooShort` when the index is
beyond the available children (no total child count is ever checked). -/
def rlpAt (it : Item) (i : Nat) : Except DecoderError Item :=
  match it with
  | .scalar _ => .error .RlpExpectedToBeList
  | .list cs =>
    match cs.get? i with
    | some c => .ok c
    | none => .error .RlpIsTooShort

/-- Decoding of an unsigned integer of byte width `size` from a scalar, as
the rlp library does for `u8`/`u64`/`U256`: at most `size` bytes, big-endian,
no leading zero byte, the empty scalar denoting zero. -/
def decodeUintBE (size : Nat) (it : Item) : Except DecoderError Nat :=
  match it with
  | .list _ => .error .RlpExpectedToBeData
  | .scalar bs =>
    if size < bs.length then .error .RlpIsTooBig
    else
      match bs with
      | 0 :: _ => .error .RlpInvalidIndirection
      | _ => .ok (beNat bs)

/-- Decoding of a raw byte-string field (`Vec<u8>` in the source): any
scalar content, but never a list. -/
def decodeBytes (it : Item) : Except DecoderError (List Nat) :=
  match it with
  | .list _ => .error .RlpExpectedToBeData
  | .scalar bs => .ok bs

/-- Decoding of a 32-byte hash field (`H256`): a scalar of exactly 32
bytes. -/
def decodeHash32 (it : Item) : Except DecoderError (List Nat) :=
  match it with
  | .list _ => .error .RlpExpectedToBeData
  | .scalar bs =>
    if bs.length < 32 then .error .RlpIsTooShort
    else if 32 < bs.length then .error .RlpIsTooBig
    else .ok bs

/-- Decoding of a string field (`String`): scalar content that must be valid
UTF-8. -/
def decodeString (it : Item) : Except DecoderError (List Nat) :=
  match it with
  | .list _ => .error .RlpExpectedToBeData
  | .scalar bs => if validUtf8 bs then .ok bs else .error .RlpInvalidUtf8

/-- The direct receipt decode `Receipt::decode`: reads fields 0..15
positionally from a list item and fails on the first field that does not
decode.  Field 5 (`logs`) is captured as the raw encoding of the child
(`rlp.at(5)?.as_raw()`), never interpreted. -/
def Receipt.decode (it : Item) : Except DecoderError Receipt := do
  let ty ← rlpAt it 0 >>= decodeUintBE 1
  let post_state ← rlpAt it 1 >>= decodeBytes
  let status ← rlpAt it 2 >>= decodeUintBE 8
  let cumulative_gas_used ← rlpAt it 3 >>= decodeUintBE 8
  let bloom ← rlpAt it 4 >>= decodeBytes
  let logsItem ← rlpAt it 5
  let tx_hash ← rlpAt it 6 >>= decodeHash32
  let contract_address ← rlpAt it 7 >>= decodeString
  let gas_used ← rlpAt it 8 >>= decodeUintBE 8
  let block_hash ← rlpAt it 9 >>= decodeHash32
  let block_number ← rlpAt it 10 >>= decodeUintBE 32
  let transaction_index ← rlpAt it 11 >>= decodeUintBE 8
  let l1_gas_price ← rlpAt it 12 >>= decodeUintBE 32
  let l1_gas_used ← rlpAt it 13 >>= decodeUintBE 32
  let l1_fee ← rlpAt it 14 >>= decodeUintBE 32
  let l1_fee_scalar ← rlpAt it 15 >>= decodeString
  pure { ty, post_state, status, cumulative_gas_used, bloom,
         logs := encodeItem logsItem, tx_hash, contract_address, gas_used,
         block_hash, block_number, transaction_index, l1_gas_price,
         l1_gas_used, l1_fee, l1_fee_scalar }

/-- The `rlp.is_empty()` test of the source loop: an empty scalar or an
empty list. -/
def isEmptyItem : Item → Bool
  | .scalar bs => bs.isEmpty
  | .list cs => cs.isEmpty

mutual

/-- The flattener `Receipt::decode_receipt_vec`: iterates over the children
of the item (a non-list item has no children, so it yields nothing), skips
empty items, keeps directly decodable receipts and recurses into everything
else, propagating any error of the recursive call. -/
def decode_receipt_vec : Item → Except DecoderError (List Receipt)
  | .scalar _ => .ok []
  | .list cs => decodeSiblings cs

/-- The sibling loop body of `decode_receipt_vec`. -/
def decodeSiblings : List Item → Except DecoderError (List Receipt)
  | [] => .ok []
  | c :: rest =>
    if isEmptyItem c then decodeSiblings rest
    else
      match Receipt.decode c with
      | .ok r =>
        match decodeSiblings rest with
        | .error e => .error e
        | .ok tail => .ok (r :: tail)
      | .error _ =>
        match decode_receipt_vec c with
        | .error e => .error e
        | .ok inner =>
          match decodeSiblings rest with
          | .error e => .error e
          | .ok tail => .ok (inner ++ tail)
end

mutual

/-- The receipt sequence `decode_receipt_vec` produces, as a plain list
(proof artifact: `decode_receipt_vec` is proved below to return exactly
`.ok (pureVec it)` on every input). -/
def pureVec : Item → List Receipt
  | .scalar _ => []
  | .list cs => pureSibs cs

/-- The sibling-loop companion of `pureVec`. -/
def pureSibs : List Item → List Receipt
  | [] => []
  | c :: rest =>
    (if isEmptyItem c then []
     else
       match Receipt.decode c with
       | .ok r => [r]
       | .error _ => pureVec c) ++ pureSibs rest

end

/-- Result of reading one item header from a buffer: a single small-value
byte, a string with its content, or a list with its payload bytes, together
with the total byte count the item consumes; or a read failure. -/
inductive HeaderInfo where
  | single (b : Nat)
  | str (content : List Nat) (consumed : Nat)
  | lst (payload : List Nat) (consumed : Nat)
  | fail (e : DecoderError)

/-- Modelled from the spec: the header analysis of the Binary Item Reader of
spec §4.1.  The source delegates byte-level parsing to the external rlp
library, whose code is not part of this repository, so the reader is
modelled from the specification text: a control byte classifies small
values, short and long strings and short and long lists; parsing is purely
length-driven; `TruncatedInput` when a declared length exceeds the remaining
buffer; `InvalidLengthEncoding` when a long-form length field is itself
truncated. -/
def readHeader : List Nat → HeaderInfo
  | [] => .fail .TruncatedInput
  | b :: rest =>
    if b ≤ 0x7f then .single b
    else if b ≤ 0xb7 then
      let n := b - 0x80
      if rest.length < n then .fail .TruncatedInput
      else .str (rest.take n) (1 + n)
    else if b ≤ 0xbf then
      let ll := b - 0xb7
      if rest.length < ll then .fail .InvalidLengthEncoding
      else
        let n := beNat (rest.take ll)
        if (rest.drop ll).length < n then .fail .TruncatedInput
        else .str ((rest.drop ll).take n) (1 + ll + n)
    else if b ≤ 0xf7 then
      let n := b - 0xc0
      if rest.length < n then .fail .TruncatedInput
      else .lst (rest.take n) (1 + n)
    else
      let ll := b - 0xf7
      if rest.length < ll then .fail .InvalidLengthEncoding
      else
        let n := beNat (rest.take ll)
        if (rest.drop ll).length < n then .fail .TruncatedInput
        else .lst ((rest.drop ll).take n) (1 + ll + n)

/-- A list payload declared by a header is strictly shorter than the buffer
the header was read from. -/
theorem readHeader_lst_payload {bs p : List Nat} {c : Nat}
    (h : readHeader bs = .lst p c) : p.length < bs.length := by
  match bs with
  | [] => simp [readHeader] at h
  | b :: rest =>
    simp only [readHeader] at h
    split at h
    · exact absurd h (by simp)
    · split at h
      · split at h <;> simp_all
      · split at h
        · split at h
          · simp at h
          · split at h <;> simp_all
        · split at h
          · split at h
            · simp at h
            · obtain ⟨hp, _⟩ := HeaderInfo.lst.inj h
              subst hp
              calc (rest.take (b - 0xc0)).length ≤ rest.length := by
                    simp [List.length_take]
                _ < (b :: rest).length := by simp
          · split at h
            · simp at h
            · split at h
              · simp at h
              · obtain ⟨hp, _⟩ := HeaderInfo.lst.inj h
                subst hp
                calc ((rest.drop (b - 0xf7)).take _).length
                      ≤ (rest.drop (b - 0xf7)).length := by
                        simp [List.length_take]
                  _ ≤ rest.length := by simp
                  _ < (b :: rest).length := by simp

/-- Every successfully read item consumes at least one byte. -/
theorem readHeader_consumed_pos {bs : List Nat} :
    (∀ b, readHeader bs = .single b → True) ∧
    (∀ cnt c, readHeader bs = .str cnt c → 1 ≤ c) ∧
    (∀ p c, readHeader bs = .lst p c → 1 ≤ c) := by
  refine ⟨fun _ _ => trivial, ?_, ?_⟩ <;>
  · intro x c h
    match bs with
    | [] => simp [readHeader] at h
    | b :: rest =>
      simp only [readHeader] at h
      split at h
      · simp at h
      · split at h
        · split at h <;> simp_all <;> omega
        · split at h
          · split at h
            · simp at h
            · split at h <;> simp_all <;> omega
          · split at h
            · split at h <;> simp_all <;> omega
            · split at h
              · simp at h
              · split at h <;> simp_all <;> omega

set_option linter.unusedVariables false in
/-- Modelled from the spec: children of a list payload are parsed
left-to-right, each by reading its header and, for a nested list,
recursively parsing its own payload, until the payload byte budget is
exhausted; any failure aborts the whole parse. -/
def parseMany : List Nat → Except DecoderError (List Item)
  | [] => .ok []
  | b :: rest =>
    match hh : readHeader (b :: rest) with
    | .fail e => .error e
    | .single v =>
      match parseMany rest with
      | .error e => .error e
      | .ok items => .ok (.scalar [v] :: items)
    | .str content consumed =>
      match parseMany ((b :: rest).drop consumed) with
      | .error e => .error e
      | .ok items => .ok (.scalar content :: items)
    | .lst payload consumed =>
      match parseMany payload with
      | .error e => .error e
      | .ok inner =>
        match parseMany ((b :: rest).drop consumed) with
        | .error e => .error e
        | .ok items => .ok (.list inner :: items)
termination_by bs => bs.length
decreasing_by
  · simp
  · have := readHeader_consumed_pos.2.1 _ _ hh
    simp [List.length_drop]
    omega
  · exact readHeader_lst_payload hh
  · have := readHeader_consumed_pos.2.2 _ _ hh
    simp [List.length_drop]
    omega

/-- Modelled from the spec: parsing of one item from a buffer, returning the
item and the number of bytes consumed (trailing bytes are permitted and
ignored, matching the length-driven reader). -/
def parse (bs : List Nat) : Except DecoderError (Item × Nat) :=
  match readHeader bs with
  | .fail e => .error e
  | .single v => .ok (.scalar [v], 1)
  | .str content consumed => .ok (.scalar content, consumed)
  | .lst payload consumed =>
    match parseMany payload with
    | .error e => .error e
    | .ok items => .ok (.list items, consumed)

/-- Header length of an encoded item: the control byte plus, for the long
forms, the length field.  The positions of the buffer from `headerLen` on
are the ones that fall inside the declared payload length. -/
def headerLen (bs : List Nat) : Nat :=
  match bs with
  | [] => 0
  | b :: _ =>
    if b ≤ 0x7f then 1
    else if b ≤ 0xb7 then 1
    else if b ≤ 0xbf then 1 + (b - 0xb7)
    else if b ≤ 0xf7 then 1
    else 1 + (b - 0xf7)

/-- The file-level entry point `Receipt::from_file` on the byte content of
the file: the first byte is discarded (`&data[1..]`, which panics on an
empty slice, modelled as `none`), the remainder is parsed into the root item
and flattened by `decode_receipt_vec`. -/
def from_file (data : List Nat) : Option (Except DecoderError (List Receipt)) :=
  match data with
  | [] => none
  | _ :: payload =>
    some
      (match parse payload with
       | .error e => .error e
       | .ok (root, _) => decode_receipt_vec root)

/-- The child fields of a concrete validly-encoded receipt used as a test
vector: type 0 (empty scalar), status 1, cumulative and total gas 21000,
transaction index 0, small literal byte strings for the other fields. -/
def rFields : List Item :=
  [Item.scalar [], Item.scalar [0xaa], Item.scalar [1],
   Item.scalar [0x52, 0x08], Item.scalar [0xbb], Item.scalar [],
   Item.scalar (List.replicate 32 0x11), Item.scalar [0x61],
   Item.scalar [0x52, 0x08], Item.scalar (List.replicate 32 0x22),
   Item.scalar [5], Item.scalar [], Item.scalar [7], Item.scalar [8],
   Item.scalar [9], Item.scalar [0x62]]

/-- The concrete valid receipt item built from `rFields`. -/
def rItem : Item := Item.list rFields

/-- The receipt value `rItem` decodes to. -/
def rcpt : Receipt :=
  { ty := 0, post_state := [0xaa], status := 1,
    cumulative_gas_used := 21000, bloom := [0xbb], logs := [0x80],
    tx_hash := List.replicate 32 0x11, contract_address := [0x61],
    gas_used := 21000, block_hash := List.replicate 32 0x22,
    block_number := 5, transaction_index := 0, l1_gas_price := 7,
    l1_gas_used := 8, l1_fee := 9, l1_fee_scalar := [0x62] }

/-- A second hand-constructed receipt item with known field values for the
field-fidelity check: its logs child (field 5) is a nested list. -/
def rItemFid : Item :=
  Item.list
    [Item.scalar [], Item.scalar [1, 2], Item.scalar [1],
     Item.scalar [0x52, 0x08], Item.scalar [0xff],
     Item.list [Item.scalar [5]], Item.scalar (List.replicate 32 0xaa),
     Item.scalar [0x30, 0x78], Item.scalar [0x52, 0x08],
     Item.scalar (List.replicate 32 0xbb), Item.scalar [0x10],
     Item.scalar [], Item.scalar [1, 0], Item.scalar [2],
     Item.scalar [0x64], Item.scalar [0x31, 0x2e, 0x35]]

/-- The receipt value `rItemFid` decodes to: every field the literal of the
construction, the unsigned fields big-endian, the logs field the raw
encoding `[0xc1, 0x05]` of its nested-list child. -/
def rcptFid : Receipt :=
  { ty := 0, post_state := [1, 2], status := 1, cumulative_gas_used := 21000,
    bloom := [0xff], logs := [0xc1, 0x05],
    tx_hash := List.replicate 32 0xaa, contract_address := [0x30, 0x78],
    gas_used := 21000, block_hash := List.replicate 32 0xbb,
    block_number := 16, transaction_index := 0, l1_gas_price := 256,
    l1_gas_used := 2, l1_fee := 100, l1_fee_scalar := [0x31, 0x2e, 0x35] }

/-- Wrapping of an item into `K` nested singleton lists. -/
def wrapK : Nat → Item → Item
  | 0, it => it
  | k + 1, it => Item.list [wrapK k it]

@[simp] theorem ok_bind {α β : Type} (a : α) (f : α → Except DecoderError β) :
    (Except.ok a >>= f) = f a := rfl

@[simp] theorem error_bind {α β : Type} (e : DecoderError)
    (f : α → Except DecoderError β) :
    ((Except.error e : Except DecoderError α) >>= f) = .error e := rfl

/-- Inversion of a successful bind. -/
theorem exbind {α β : Type} {x : Except DecoderError α}
    {f : α → Except DecoderError β} {b : β} (h : (x >>= f) = .ok b) :
    ∃ a, x = .ok a ∧ f a = .ok b := by
  cases x with
  | ok a => exact ⟨a, rfl, h⟩
  | error e => exact absurd h (by simp)

/-- Joint size-bounded form of the statement that the flattener always
succeeds and returns its pure mirror. -/
theorem vec_pure_aux : ∀ n : Nat,
    (∀ t : Item, sizeOf t ≤ n → decode_receipt_vec t = .ok (pureVec t)) ∧
    (∀ cs : List Item, sizeOf cs ≤ n → decodeSiblings cs = .ok (pureSibs cs)) := by
  intro n
  induction n with
  | zero =>
    constructor
    · intro t h; cases t <;> simp at h
    · intro cs h; cases cs <;> simp at h
  | succ n ih =>
    constructor
    · intro t h
      cases t with
      | scalar bs => simp [decode_receipt_vec, pureVec]
      | list cs =>
        have hcs : sizeOf cs ≤ n := by simp at h; omega
        simp [decode_receipt_vec, pureVec, ih.2 cs hcs]
    · intro cs h
      cases cs with
      | nil => simp [decodeSiblings, pureSibs]
      | cons c rest =>
        have hc : sizeOf c ≤ n := by simp at h; omega
        have hrest : sizeOf rest ≤ n := by simp at h; omega
        by_cases hemp : isEmptyItem c = true
        · simp [decodeSiblings, pureSibs, hemp, ih.2 rest hrest]
        · cases hdec : Receipt.decode c with
          | ok r =>
            simp [decodeSiblings, pureSibs, hemp, hdec, ih.2 rest hrest]
          | error e =>
            simp [decodeSiblings, pureSibs, hemp, hdec, ih.1 c hc,
                  ih.2 rest hrest]

/-- The flattener always returns `.ok` of its pure mirror. -/
theorem decode_receipt_vec_eq (t : Item) :
    decode_receipt_vec t = .ok (pureVec t) :=
  (vec_pure_aux (sizeOf t)).1 t le_rfl

/-- The sibling loop always returns `.ok` of its pure mirror. -/
theorem decodeSiblings_eq (cs : List Item) :
    decodeSiblings cs = .ok (pureSibs cs) :=
  (vec_pure_aux (sizeOf cs)).2 cs le_rfl

/-- A successful direct receipt decode forces the item to be a list of at
least 16 children (the field reads are positional; no total count is
checked). -/
theorem decode_ok_shape {it : Item} {r : Receipt}
    (h : Receipt.decode it = .ok r) :
    ∃ cs, it = Item.list cs ∧ 16 ≤ cs.length := by
  simp only [Receipt.decode] at h
  obtain ⟨v0, h0, h⟩ := exbind h
  obtain ⟨v1, h1, h⟩ := exbind h
  obtain ⟨v2, h2, h⟩ := exbind h
  obtain ⟨v3, h3, h⟩ := exbind h
  obtain ⟨v4, h4, h⟩ := exbind h
  obtain ⟨v5, h5, h⟩ := exbind h
  obtain ⟨v6, h6, h⟩ := exbind h
  obtain ⟨v7, h7, h⟩ := exbind h
  obtain ⟨v8, h8, h⟩ := exbind h
  obtain ⟨v9, h9, h⟩ := exbind h
  obtain ⟨v10, h10, h⟩ := exbind h
  obtain ⟨v11, h11, h⟩ := exbind h
  obtain ⟨v12, h12, h⟩ := exbind h
  obtain ⟨v13, h13, h⟩ := exbind h
  obtain ⟨v14, h14, h⟩ := exbind h
  obtain ⟨v15, h15, h⟩ := exbind h
  obtain ⟨c15, hc15, _⟩ := exbind h15
  cases it with
  | scalar bs => simp [rlpAt] at hc15
  | list cs =>
    refine ⟨cs, rfl, ?_⟩
    simp only [rlpAt] at hc15
    cases hget : cs.get? 15 with
    | none => rw [hget] at hc15; exact absurd hc15 (by simp)
    | some c =>
      obtain ⟨hlt, _⟩ := List.get?_eq_some.mp hget
      omega

/-- An item that directly decodes as a receipt is never the empty item. -/
theorem decode_ok_not_empty {it : Item} {r : Receipt}
    (h : Receipt.decode it = .ok r) : isEmptyItem it = false := by
  obtain ⟨cs, rfl, hlen⟩ := decode_ok_shape h
  cases cs with
  | nil => simp at hlen
  | cons a l => simp [isEmptyItem]

/-- Direct receipt decode of a list whose first child is itself a list fails
at field 0 (a list where the `u8` type byte was expected). -/
theorem decode_list_head_fails (ds : List Item) (cs : List Item) :
    Receipt.decode (Item.list (Item.list ds :: cs)) =
      .error .RlpExpectedToBeData := by
  simp [Receipt.decode, rlpAt, decodeUintBE]

/-- Direct receipt decode of a scalar fails immediately (the field accessor
expects a list). -/
theorem decode_scalar_fails (bs : List Nat) :
    Receipt.decode (Item.scalar bs) = .error .RlpExpectedToBeList := by
  simp [Receipt.decode, rlpAt]

/-- One-step unfolding of the sibling loop of the pure mirror. -/
theorem pureSibs_cons (c : Item) (rest : List Item) :
    pureSibs (c :: rest) =
      (if isEmptyItem c then []
       else
         match Receipt.decode c with
         | .ok r => [r]
         | .error _ => pureVec c) ++ pureSibs rest := rfl

/-- Inserting any scalar among siblings leaves the pure flattening
unchanged: an empty scalar is skipped, a non-empty one fails direct decode
and its recursive flattening yields nothing. -/
theorem pureSibs_scalar_skip (bs : List Nat) (l1 l2 : List Item) :
    pureSibs (l1 ++ Item.scalar bs :: l2) = pureSibs (l1 ++ l2) := by
  induction l1 with
  | nil =>
    by_cases hemp : isEmptyItem (Item.scalar bs) = true
    · simp [pureSibs, hemp]
    · simp [pureSibs, hemp, decode_scalar_fails, pureVec]
  | cons a l1 ih => simp [pureSibs, ih]

/-- A sequence of directly decodable receipts flattens to exactly the
corresponding receipt values, in order. -/
theorem pureSibs_flat {items : List Item} {rs : List Receipt}
    (h : List.Forall₂ (fun it r => Receipt.decode it = .ok r) items rs) :
    pureSibs items = rs := by
  induction h with
  | nil => simp [pureSibs]
  | @cons it r items rs hd _ ih =>
    simp [pureSibs, decode_ok_not_empty hd, hd, ih]

/-- Wrapping a directly decodable receipt in any number of singleton lists
leaves the flattening a single receipt. -/
theorem pureSibs_wrap {it : Item} {r : Receipt}
    (h : Receipt.decode it = .ok r) :
    ∀ K, pureSibs [wrapK K it] = [r] := by
  intro K
  induction K with
  | zero => simp [wrapK, pureSibs, decode_ok_not_empty h, h]
  | succ k ih =>
    have hw : ∃ ds, wrapK k it = Item.list ds := by
      cases k with
      | zero =>
        obtain ⟨cs, hcs, _⟩ := decode_ok_shape h
        exact ⟨cs, by simp [wrapK, hcs]⟩
      | succ m => exact ⟨[wrapK m it], rfl⟩
    obtain ⟨ds, hds⟩ := hw
    have hfail : Receipt.decode (Item.list [wrapK k it]) =
        .error .RlpExpectedToBeData := by
      rw [hds]; exact decode_list_head_fails ds []
    calc pureSibs [wrapK (k + 1) it]
        = (match Receipt.decode (Item.list [wrapK k it]) with
           | .ok r => [r]
           | .error _ => pureVec (Item.list [wrapK k it])) ++ pureSibs [] := by
          rw [show wrapK (k + 1) it = Item.list [wrapK k it] from rfl,
              pureSibs_cons]
          simp [isEmptyItem]
      _ = pureVec (Item.list [wrapK k it]) ++ [] := by rw [hfail]; rfl
      _ = pureSibs [wrapK k it] := by simp [pureVec]
      _ = [r] := ih

/-- The concrete receipt item decodes to its expected receipt value. -/
theorem rItem_decodes : Receipt.decode rItem = .ok rcpt := by decide

/-- Claim C1, counterexample: a non-empty scalar sibling that is not a
decodable receipt does not make the decode fail; the whole decode succeeds,
the scalar is dropped, and the receipts of the other siblings are
returned. -/
theorem claim_C1_counterexample :
    Receipt.decode (Item.scalar [1]) = .error .RlpExpectedToBeList ∧
    decode_receipt_vec (Item.list [Item.scalar [1], rItem]) = .ok [rcpt] := by
  constructor
  · decide
  · decide

/-- Claim C1, amended: a scalar sibling that is non-empty (hence not an
empty placeholder, and never a decodable receipt) is silently skipped — the
recursive call on it yields no receipts — so the decode of the file is the
same as if the scalar were absent, with no error raised. -/
theorem claim_C1_amended (bs : List Nat) (l1 l2 : List Item)
    (_hne : bs ≠ []) :
    decode_receipt_vec (Item.list (l1 ++ Item.scalar bs :: l2)) =
      decode_receipt_vec (Item.list (l1 ++ l2)) := by
  rw [decode_receipt_vec_eq, decode_receipt_vec_eq]
  have : pureVec (Item.list (l1 ++ Item.scalar bs :: l2)) =
      pureVec (Item.list (l1 ++ l2)) := by
    simp only [pureVec]
    exact pureSibs_scalar_skip bs l1 l2
  rw [this]

/-- Claim C1, witness for the amended theorem. -/
theorem claim_C1_amended_witness :
    decode_receipt_vec (Item.list ([] ++ Item.scalar [1] :: [rItem])) =
      decode_receipt_vec (Item.list ([] ++ [rItem])) :=
  claim_C1_amended [1] [] [rItem] (by simp)

/-- Claim C2: decoding a flat list of directly decodable receipts yields
exactly those receipts in encoding order, and decoding
`List[List[r1, r2], r3]` yields `[r1, r2, r3]`, depth-first and
left-to-right. -/
theorem claim_C2_order_and_flattening :
    (∀ (items : List Item) (rs : List Receipt),
      List.Forall₂ (fun it r => Receipt.decode it = .ok r) items rs →
      decode_receipt_vec (Item.list items) = .ok rs) ∧
    (∀ (i1 i2 i3 : Item) (r1 r2 r3 : Receipt),
      Receipt.decode i1 = .ok r1 → Receipt.decode i2 = .ok r2 →
      Receipt.decode i3 = .ok r3 →
      decode_receipt_vec (Item.list [Item.list [i1, i2], i3]) =
        .ok [r1, r2, r3]) := by
  constructor
  · intro items rs h
    rw [decode_receipt_vec_eq]
    have : pureVec (Item.list items) = rs := by
      simp only [pureVec]; exact pureSibs_flat h
    rw [this]
  · intro i1 i2 i3 r1 r2 r3 h1 h2 h3
    obtain ⟨cs1, hcs1, _⟩ := decode_ok_shape h1
    have hfail : Receipt.decode (Item.list [i1, i2]) =
        .error .RlpExpectedToBeData := by
      rw [hcs1]; exact decode_list_head_fails cs1 [i2]
    have e1 : pureSibs [i1, i2] = [r1, r2] :=
      pureSibs_flat (List.Forall₂.cons h1 (List.Forall₂.cons h2 List.Forall₂.nil))
    have e2 : pureSibs [i3] = [r3] :=
      pureSibs_flat (List.Forall₂.cons h3 List.Forall₂.nil)
    rw [decode_receipt_vec_eq]
    have : pureVec (Item.list [Item.list [i1, i2], i3]) = [r1, r2, r3] := by
      calc pureVec (Item.list [Item.list [i1, i2], i3])
          = (match Receipt.decode (Item.list [i1, i2]) with
             | .ok r => [r]
             | .error _ => pureVec (Item.list [i1, i2])) ++ pureSibs [i3] := by
            rw [show pureVec (Item.list [Item.list [i1, i2], i3]) =
                  pureSibs [Item.list [i1, i2], i3] from by simp [pureVec],
                pureSibs_cons]
            simp [isEmptyItem]
        _ = pureVec (Item.list [i1, i2]) ++ pureSibs [i3] := by rw [hfail]
        _ = pureSibs [i1, i2] ++ pureSibs [i3] := by simp [pureVec]
        _ = [r1, r2, r3] := by rw [e1, e2]; rfl
    rw [this]

/-- Claim C2, witness: both parts applied to the concrete receipt item. -/
theorem claim_C2_witness :
    decode_receipt_vec (Item.list [rItem]) = .ok [rcpt] ∧
    decode_receipt_vec (Item.list [Item.list [rItem, rItem], rItem]) =
      .ok [rcpt, rcpt, rcpt] :=
  ⟨claim_C2_order_and_flattening.1 [rItem] [rcpt]
      (List.Forall₂.cons rItem_decodes List.Forall₂.nil),
   claim_C2_order_and_flattening.2 rItem rItem rItem rcpt rcpt rcpt
      rItem_decodes rItem_decodes rItem_decodes⟩

/-- Claim C3, counterexample: a list item with 17 children whose first 16
children are valid receipt fields decodes successfully as a receipt — the
direct decode does not require exactly 16 children. -/
theorem claim_C3_counterexample :
    (rFields ++ [Item.scalar [1]]).length = 17 ∧
    Receipt.decode (Item.list (rFields ++ [Item.scalar [1]])) = .ok rcpt := by
  constructor
  · decide
  · decide

/-- Claim C3, amended: direct receipt decode succeeds only on a list item
with at least 16 children (the 16 fields are read positionally; children
beyond index 15 are ignored, so a longer list can still decode). -/
theorem claim_C3_amended (it : Item) (r : Receipt)
    (h : Receipt.decode it = .ok r) :
    ∃ cs, it = Item.list cs ∧ 16 ≤ cs.length :=
  decode_ok_shape h

/-- Claim C3, witness for the amended theorem. -/
theorem claim_C3_amended_witness :
    ∃ cs, rItem = Item.list cs ∧ 16 ≤ cs.length :=
  claim_C3_amended rItem rcpt rItem_decodes

/-- Claim C4, counterexample: there is no depth bound past which decoding a
singly-wrapped valid receipt fails — decoding succeeds for every nesting
depth, so no `DecodeDepthExceeded`-style failure ever happens. -/
theorem claim_C4_counterexample :
    ¬ ∃ B : Nat, ∀ K : Nat, B < K →
      ∃ e, decode_receipt_vec (Item.list [wrapK K rItem]) = .error e := by
  rintro ⟨B, hB⟩
  obtain ⟨e, he⟩ := hB (B + 1) (by omega)
  rw [decode_receipt_vec_eq] at he
  exact absurd he (by simp)

/-- Claim C4, amended: a directly decodable receipt wrapped in `K` nested
singleton lists decodes to exactly that one receipt for every `K`; the
source recursion has no depth bound and never returns a depth error. -/
theorem claim_C4_amended (it : Item) (r : Receipt)
    (h : Receipt.decode it = .ok r) (K : Nat) :
    decode_receipt_vec (Item.list [wrapK K it]) = .ok [r] := by
  rw [decode_receipt_vec_eq]
  have : pureVec (Item.list [wrapK K it]) = [r] := by
    simp only [pureVec]; exact pureSibs_wrap h K
  rw [this]

/-- Claim C4, witness for the amended theorem at depth 3. -/
theorem claim_C4_amended_witness :
    decode_receipt_vec (Item.list [wrapK 3 rItem]) = .ok [rcpt] :=
  claim_C4_amended rItem rcpt rItem_decodes 3

/-- Claim C5: inserting an empty (zero-length) scalar at any position among
siblings yields exactly the same decoded receipt sequence as decoding
without it. -/
theorem claim_C5_placeholder_identity (l1 l2 : List Item) :
    decode_receipt_vec (Item.list (l1 ++ Item.scalar [] :: l2)) =
      decode_receipt_vec (Item.list (l1 ++ l2)) := by
  rw [decode_receipt_vec_eq, decode_receipt_vec_eq]
  have : pureVec (Item.list (l1 ++ Item.scalar [] :: l2)) =
      pureVec (Item.list (l1 ++ l2)) := by
    simp only [pureVec]
    exact pureSibs_scalar_skip [] l1 l2
  rw [this]

/-- Claim C6: the hand-constructed receipt item with known field values
decodes to exactly those literal values — unsigned fields big-endian with
the empty scalar meaning zero, and the logs field captured as the raw
encoding of its nested-list child. -/
theorem claim_C6_field_fidelity : Receipt.decode rItemFid = .ok rcptFid := by
  decide

/-- Claim C8: whenever the parsed root item of the payload after the
discarded first byte is empty or not a list, the file-level decode returns
an empty receipt batch and no error. -/
theorem claim_C8_degenerate_root (fb : Nat) (payload : List Nat)
    (root : Item) (n : Nat) (hparse : parse payload = .ok (root, n))
    (hroot : (∀ bs, root ≠ Item.list bs) ∨ root = Item.list []) :
    from_file (fb :: payload) = some (.ok []) := by
  simp only [from_file, hparse]
  cases root with
  | scalar bs => rfl
  | list cs =>
    rcases hroot with hroot | hroot
    · exact absurd rfl (hroot cs)
    · obtain rfl : cs = [] := by
        cases Item.list.inj hroot; rfl
      rfl

/-- Claim C8, witness: a file whose payload parses to the empty scalar. -/
theorem claim_C8_witness : from_file [0, 0x80] = some (.ok []) :=
  claim_C8_degenerate_root 0 [0x80] (Item.scalar []) 1
    (by simp [parse, readHeader])
    (Or.inl fun bs h => Item.noConfusion h)

/-- Claim C9: the flattening pass is infallible — on every input item tree
`decode_receipt_vec` returns a successful receipt sequence, never an
error. -/
theorem claim_C9_infallible (t : Item) :
    ∃ rs, decode_receipt_vec t = .ok rs :=
  ⟨pureVec t, decode_receipt_vec_eq t⟩

/-- Claim C10: on an empty file the slice `data[1..]` of the entry point is
out of bounds (modelled as `none`, the panic); whenever the content has at
least one byte the entry point returns a value. -/
theorem claim_C10_empty_file_panics :
    from_file [] = none ∧
    ∀ data : List Nat, 1 ≤ data.length → ∃ r, from_file data = some r := by
  refine ⟨rfl, fun data h => ?_⟩
  match data with
  | [] => simp at h
  | b :: payload => exact ⟨_, rfl⟩

/-- Claim C10, witness: a one-byte file (format byte only) already returns a
value. -/
theorem claim_C10_witness :
    from_file [] = none ∧ ∃ r, from_file [0x05] = some r :=
  ⟨claim_C10_empty_file_panics.1,
   claim_C10_empty_file_panics.2 [0x05] (by simp)⟩

/-- Erasing at an index at or beyond `k` does not change the first `k`
elements of a list. -/
theorem take_eraseIdx_of_le {α : Type} :
    ∀ (l : List α) (i k : Nat), k ≤ i → (l.eraseIdx i).take k = l.take k := by
  intro l
  induction l with
  | nil => intro i k _; simp [List.eraseIdx]
  | cons a l ih =>
    intro i k hk
    cases i with
    | zero =>
      have hz : k = 0 := by omega
      subst hz; simp
    | succ i =>
      cases k with
      | zero => simp
      | succ k =>
        rw [List.eraseIdx_cons_succ, List.take_succ_cons, List.take_succ_cons,
            ih i k (by omega)]

/-- Every item header occupies at least one byte. -/
theorem headerLen_pos (b : Nat) (rest : List Nat) :
    1 ≤ headerLen (b :: rest) := by
  simp only [headerLen]
  split_ifs <;> omega

/-- A short-string buffer whose declared content length fills the whole
buffer reads as `TruncatedInput` once a content byte is removed. -/
theorem readHeader_erase_shortstr (b : Nat) (rest : List Nat) (q : Nat)
    (hb1 : 0x80 ≤ b) (hb2 : b ≤ 0xb7) (hn : b - 0x80 = rest.length)
    (hq : q < rest.length) :
    readHeader (b :: rest.eraseIdx q) = .fail .TruncatedInput := by
  have hlen : (rest.eraseIdx q).length = rest.length - 1 :=
    List.length_eraseIdx_of_lt hq
  simp only [readHeader]
  split_ifs <;> first | rfl | omega

/-- A short-list buffer whose declared payload length fills the whole buffer
reads as `TruncatedInput` once a payload byte is removed. -/
theorem readHeader_erase_shortlst (b : Nat) (rest : List Nat) (q : Nat)
    (hb1 : 0xc0 ≤ b) (hb2 : b ≤ 0xf7) (hn : b - 0xc0 = rest.length)
    (hq : q < rest.length) :
    readHeader (b :: rest.eraseIdx q) = .fail .TruncatedInput := by
  have hlen : (rest.eraseIdx q).length = rest.length - 1 :=
    List.length_eraseIdx_of_lt hq
  simp only [readHeader]
  split_ifs <;> first | rfl | omega

/-- A long-string buffer whose declared content length fills the whole
buffer reads as `TruncatedInput` once a content byte (beyond the length
field) is removed. -/
theorem readHeader_erase_longstr (b : Nat) (rest : List Nat) (q : Nat)
    (hb1 : 0xb8 ≤ b) (hb2 : b ≤ 0xbf)
    (hn : b - 0xb7 + beNat (rest.take (b - 0xb7)) = rest.length)
    (hq1 : b - 0xb7 ≤ q) (hq2 : q < rest.length) :
    readHeader (b :: rest.eraseIdx q) = .fail .TruncatedInput := by
  have hlen : (rest.eraseIdx q).length = rest.length - 1 :=
    List.length_eraseIdx_of_lt hq2
  have htake : (rest.eraseIdx q).take (b - 0xb7) = rest.take (b - 0xb7) :=
    take_eraseIdx_of_le rest q (b - 0xb7) hq1
  have hdrop : ((rest.eraseIdx q).drop (b - 0xb7)).length =
      (rest.eraseIdx q).length - (b - 0xb7) := by simp
  simp only [readHeader, htake]
  split_ifs <;> first | rfl | omega

/-- A long-list buffer whose declared payload length fills the whole buffer
reads as `TruncatedInput` once a payload byte (beyond the length field) is
removed. -/
theorem readHeader_erase_longlst (b : Nat) (rest : List Nat) (q : Nat)
    (hb1 : 0xf8 ≤ b)
    (hn : b - 0xf7 + beNat (rest.take (b - 0xf7)) = rest.length)
    (hq1 : b - 0xf7 ≤ q) (hq2 : q < rest.length) :
    readHeader (b :: rest.eraseIdx q) = .fail .TruncatedInput := by
  have hlen : (rest.eraseIdx q).length = rest.length - 1 :=
    List.length_eraseIdx_of_lt hq2
  have htake : (rest.eraseIdx q).take (b - 0xf7) = rest.take (b - 0xf7) :=
    take_eraseIdx_of_le rest q (b - 0xf7) hq1
  have hdrop : ((rest.eraseIdx q).drop (b - 0xf7)).length =
      (rest.eraseIdx q).length - (b - 0xf7) := by simp
  simp only [readHeader, htake]
  split_ifs <;> first | rfl | omega

/-- Claim C7: removing one byte of an exactly-consumed encoded buffer at any
position inside the declared length makes the parse fail with
`TruncatedInput`, and the file-level decode of a file carrying the truncated
payload fails with `TruncatedInput` as well — never a successful but
different receipt sequence. -/
theorem claim_C7_truncation (bs : List Nat) (t : Item) (p : Nat)
    (hparse : parse bs = .ok (t, bs.length))
    (hp1 : headerLen bs ≤ p) (hp2 : p < bs.length) :
    parse (bs.eraseIdx p) = .error .TruncatedInput ∧
    ∀ fb, from_file (fb :: bs.eraseIdx p) = some (.error .TruncatedInput) := by
  suffices h : parse (bs.eraseIdx p) = .error .TruncatedInput by
    exact ⟨h, fun fb => by simp only [from_file, h]⟩
  match bs with
  | [] => simp [parse, readHeader] at hparse
  | b :: rest =>
    have hple : 1 ≤ p := le_trans (headerLen_pos b rest) hp1
    simp only [List.length_cons] at hp2 hparse
    obtain ⟨q, rfl⟩ : ∃ q, p = q + 1 := ⟨p - 1, by omega⟩
    rw [List.eraseIdx_cons_succ]
    cases hh : readHeader (b :: rest) with
    | fail e =>
      simp only [parse, hh] at hparse
      exact absurd hparse (by simp)
    | single v =>
      simp only [parse, hh, Except.ok.injEq, Prod.mk.injEq] at hparse
      obtain ⟨-, hcons⟩ := hparse
      omega
    | str cnt consumed =>
      simp only [parse, hh, Except.ok.injEq, Prod.mk.injEq] at hparse
      obtain ⟨-, hcons⟩ := hparse
      simp only [readHeader] at hh
      split_ifs at hh <;> simp at hh
      · -- short string
        obtain ⟨hc1, hc2⟩ := hh
        have hfail := readHeader_erase_shortstr b rest q (by omega) (by omega)
          (by omega) (by omega)
        simp only [parse, hfail]
      · -- long string
        obtain ⟨hc1, hc2⟩ := hh
        have hhl : headerLen (b :: rest) = 1 + (b - 0xb7) := by
          simp only [headerLen]
          rw [if_neg (by omega), if_neg (by omega), if_pos (by omega)]
        rw [hhl] at hp1
        have hfail := readHeader_erase_longstr b rest q (by omega) (by omega)
          (by omega) (by omega) (by omega)
        simp only [parse, hfail]
    | lst pl consumed =>
      simp only [parse, hh] at hparse
      cases hpm : parseMany pl with
      | error e => rw [hpm] at hparse; simp at hparse
      | ok items =>
        rw [hpm] at hparse
        simp only [Except.ok.injEq, Prod.mk.injEq] at hparse
        obtain ⟨-, hcons⟩ := hparse
        simp only [readHeader] at hh
        split_ifs at hh <;> simp at hh
        · -- short list
          obtain ⟨hc1, hc2⟩ := hh
          have hfail := readHeader_erase_shortlst b rest q (by omega)
            (by omega) (by omega) (by omega)
          simp only [parse, hfail]
        · -- long list
          obtain ⟨hc1, hc2⟩ := hh
          have hhl : headerLen (b :: rest) = 1 + (b - 0xf7) := by
            simp only [headerLen]
            rw [if_neg (by omega), if_neg (by omega), if_neg (by omega),
                if_neg (by omega)]
          rw [hhl] at hp1
          have hfail := readHeader_erase_longlst b rest q (by omega)
            (by omega) (by omega) (by omega)
          simp only [parse, hfail]

/-- Claim C7, witness: a two-byte string whose last content byte is
removed. -/
theorem claim_C7_truncation_witness :
    parse ([0x82, 1, 2].eraseIdx 1) = .error .TruncatedInput ∧
    ∀ fb, from_file (fb :: [0x82, 1, 2].eraseIdx 1) =
      some (.error .TruncatedInput) :=
  claim_C7_truncation [0x82, 1, 2] (Item.scalar [1, 2]) 1
    (by simp [parse, readHeader]) (by simp [headerLen]) (by norm_num)

end Reth
